import Mathlib

/-!
Shallow embedding of the peer-management core (peernet core package):
connection liveness classification (`IsNetworkErrorFatal`), the peer
registry (`PeerlistAdd` and friends), the announcement handler
(`cmdAnouncement`), the keep-alive tick (`autoPingAll` body: `tickActive`,
`tickInactive`, `sendPing`), and the interface-removal cascade
(`networkChangeInterfaceRemove`, including Go slice splice semantics).

Machine integers do not occur on the verified paths; times are modelled
as `Int` seconds and `time.Time.Before` as `<`.  Go pointer identity of
`*Connection` is modelled by a numeric `id` field; theorems that need
"each pointer occurs once" state it as `Nodup` over the ids.

Functions of the repository that are referenced from the verified files
but whose defining file is not part of the source slice
(`invalidateActiveConnection`, `removeInactiveConnection`,
`GetConnections`, `peer.send`) are modelled from the spec; each such
definition carries a doc comment starting with `Modelled from the spec:`.
-/

/-- Connection liveness states (spec section 3; Go constants
`ConnectionActive`, `ConnectionRedundant`, `ConnectionInactive`). -/
inductive ConnStatus where
  | Active
  | Redundant
  | Inactive
deriving DecidableEq

/-- One network path to a peer (Go struct `Connection`): status, the
timestamps of the last inbound packet and last outbound ping, and the
expiry used while inactive.  `id` models Go pointer identity. -/
structure Connection where
  id : Nat
  Status : ConnStatus
  LastPacketIn : Int
  LastPingOut : Int
  Expires : Int
deriving DecidableEq

/-- The per-peer connection lists (fields `connectionActive` and
`connectionInactive` of Go struct `PeerInfo`). -/
structure PeerState where
  connectionActive : List Connection
  connectionInactive : List Connection
deriving DecidableEq

/-- Go constant `pingTime` (seconds between outbound pings). -/
def pingTime : Int := 10

/-- Go constant `connectionInvalidate` (seconds before an active
connection that receives nothing is invalidated). -/
def connectionInvalidate : Int := 22

/-- Go constant `connectionRemove` (seconds before an inactive
connection may be removed). -/
def connectionRemove : Int := 2 * 60

/-- Threshold `thresholdInvalidate1` of `autoPingAll`:
`time.Now().Add(-connectionInvalidate * time.Second)`. -/
def thresholdInvalidate1 (now : Int) : Int := now - connectionInvalidate

/-- Threshold `thresholdInvalidate2` of `autoPingAll`:
`time.Now().Add(-connectionInvalidate * time.Second * 4)`. -/
def thresholdInvalidate2 (now : Int) : Int := now - connectionInvalidate * 4

/-- Threshold `thresholdPingOut1` of `autoPingAll`:
`time.Now().Add(-pingTime * time.Second)`. -/
def thresholdPingOut1 (now : Int) : Int := now - pingTime

/-- Threshold `thresholdPingOut2` of `autoPingAll`:
`time.Now().Add(-pingTime * time.Second * 4)`. -/
def thresholdPingOut2 (now : Int) : Int := now - pingTime * 4

/-- Character-list analogue of `strings.HasPrefix`: does the second list
start with the first? -/
def startsWithChars : List Char → List Char → Bool
  | [], _ => true
  | _ :: _, [] => false
  | a :: as, b :: bs => a = b && startsWithChars as bs

/-- Character-list analogue of `strings.Contains`: does the first list
contain the second as a contiguous run? -/
def containsChars : List Char → List Char → Bool
  | [], pat => pat.isEmpty
  | c :: rest, pat => startsWithChars pat (c :: rest) || containsChars rest pat

/-- Embedding of Go `strings.Contains s pat`. -/
def strContainsSub (s pat : String) : Bool := containsChars s.data pat.data

/-- The error-text pattern matched by `IsNetworkErrorFatal`
(Network Detection.go line 86). -/
def netErrPattern : String := "requested address is not valid in its context"

/-- Embedding of `IsNetworkErrorFatal` (Network Detection.go lines
78-91).  A Go `error` is `Option String`: `none` is `nil`, `some s` is an
error whose `Error()` text is `s`.  The source returns `false` for `nil`,
`true` when the text contains `netErrPattern`, else `false`. -/
def IsNetworkErrorFatal : Option String → Bool
  | none => false
  | some s => strContainsSub s netErrPattern

/-- Ids of a connection list (Go: the pointer values stored in a slice). -/
def idsOf (l : List Connection) : List Nat := l.map Connection.id

/-- First connection with the given id, if any (Go pointer lookup). -/
def findId : List Connection → Nat → Option Connection
  | [], _ => none
  | c :: rest, i => if c.id = i then some c else findId rest i

/-- Replace every connection that has `c.id` by `c` (Go mutation through
the shared `*Connection` pointer, seen by every list holding it). -/
def updateConn (l : List Connection) (c : Connection) : List Connection :=
  l.map (fun d => if d.id = c.id then c else d)

/-- Modelled from the spec: `invalidateActiveConnection` (referenced from
Commands.go but defined in a file outside this slice) moves an
Active/Redundant connection to the inactive list: the status becomes
Inactive, it leaves the active list, and it is kept for a while
(`connectionRemove` seconds, the constant of Commands.go line 99) before
its inactive expiry passes. -/
def invalidateActiveConnection (now : Int) (ps : PeerState) (c : Connection) : PeerState :=
  { connectionActive := ps.connectionActive.filter (fun d => d.id != c.id),
    connectionInactive := ps.connectionInactive ++
      [{ c with Status := ConnStatus.Inactive, Expires := now + connectionRemove }] }

/-- Modelled from the spec: `removeInactiveConnection` (referenced from
Commands.go but defined outside this slice) purges a connection from the
peer's inactive list. -/
def removeInactiveConnection (ps : PeerState) (c : Connection) : PeerState :=
  { ps with connectionInactive := ps.connectionInactive.filter (fun d => d.id != c.id) }

/-- Embedding of `sendPing` (Commands.go lines 149-157).  `err` is the
result of `peer.sendConnection`; the send itself is external I/O.  The
source always stamps `LastPingOut = time.Now()` after the send, then
invalidates the connection when the status is Active or Redundant and
the error is fatal. -/
def sendPing (now : Int) (err : Option String) (ps : PeerState) (c : Connection) : PeerState :=
  let c2 := { c with LastPingOut := now }
  if (c.Status = ConnStatus.Active ∨ c.Status = ConnStatus.Redundant) ∧
      IsNetworkErrorFatal err = true then
    invalidateActiveConnection now ps c2
  else
    { connectionActive := updateConn ps.connectionActive c2,
      connectionInactive := updateConn ps.connectionInactive c2 }

/-- Active-connection pass of one `autoPingAll` tick (Commands.go lines
110-130), iterating over the snapshot list in order.  `err` gives the
send error a ping on a given connection id would report.  Returns the
new peer state and the ids pinged by this pass. -/
def tickActive (now : Int) (err : Nat → Option String) :
    List Connection → PeerState → PeerState × List Nat
  | [], ps => (ps, [])
  | c :: rest, ps =>
    let thInv := if c.Status = ConnStatus.Redundant then thresholdInvalidate2 now
      else thresholdInvalidate1 now
    let thPing := if c.Status = ConnStatus.Redundant then thresholdPingOut2 now
      else thresholdPingOut1 now
    if c.LastPacketIn < thInv then
      tickActive now err rest (invalidateActiveConnection now ps c)
    else if c.LastPacketIn < thPing ∧ c.LastPingOut < thPing then
      let r := tickActive now err rest (sendPing now (err c.id) ps c)
      (r.1, c.id :: r.2)
    else
      tickActive now err rest ps

/-- Inactive-connection pass of one `autoPingAll` tick (Commands.go lines
132-144).  The purge guard reads the live list lengths
(`len(peer.connectionActive) >= 1 || len(peer.connectionInactive) > 2`,
line 135) while iterating over the snapshot list. -/
def tickInactive (now : Int) (err : Nat → Option String) :
    List Connection → PeerState → PeerState × List Nat
  | [], ps => (ps, [])
  | c :: rest, ps =>
    if (1 ≤ ps.connectionActive.length ∨ 2 < ps.connectionInactive.length) ∧
        c.Expires < now then
      tickInactive now err rest (removeInactiveConnection ps c)
    else if c.LastPingOut < thresholdPingOut1 now then
      let r := tickInactive now err rest (sendPing now (err c.id) ps c)
      (r.1, c.id :: r.2)
    else
      tickInactive now err rest ps

/-- Modelled from the spec: `GetConnections` (defined outside this slice)
returns a snapshot copy of the peer's active or inactive list. -/
def GetConnections (ps : PeerState) (active : Bool) : List Connection :=
  if active then ps.connectionActive else ps.connectionInactive

/-- One `autoPingAll` tick for one peer: the active pass over the active
snapshot, then the inactive pass over the inactive snapshot taken after
the active pass (Commands.go lines 110-144).  Returns the state, the
ids pinged by the active pass, and the ids pinged by the inactive
pass. -/
def tickPeer (now : Int) (err : Nat → Option String) (ps : PeerState) :
    PeerState × List Nat × List Nat :=
  let ra := tickActive now err (GetConnections ps true) ps
  let ri := tickInactive now err (GetConnections ra.1 false) ra.1
  (ri.1, ra.2, ri.2)

/-- A peer record (Go struct `PeerInfo`, Peer ID.go lines 66-77).  The
public key is modelled as the canonical compressed-key value, a `Nat`
(`publicKey2Compressed` is injective on the identities the registry
distinguishes, so the model collapses it to the identity map). -/
structure PeerInfo where
  PublicKey : Nat
  connectionActive : List Connection
  connectionInactive : List Connection
  connectionLatest : Option Connection
deriving DecidableEq

/-- The peer registry `peerList` (Peer ID.go line 79), a map keyed by the
compressed public key, modelled as an association list. -/
abbrev Registry := List (Nat × PeerInfo)

/-- Map lookup `peerList[key]`. -/
def regLookup : Registry → Nat → Option PeerInfo
  | [], _ => none
  | (k2, p) :: rest, k => if k2 = k then some p else regLookup rest k

/-- Number of records stored under a key (for a Go map this is 0 or 1). -/
def countKey (reg : Registry) (k : Nat) : Nat :=
  (reg.filter (fun e => e.1 == k)).length

/-- Embedding of `PeerlistAdd` (Peer ID.go lines 83-100): reject an empty
connection list, return the existing record unchanged when the key is
present, otherwise create the record with the given connections active,
no inactive connections, and the first connection as latest. -/
def PeerlistAdd (reg : Registry) (k : Nat) (conns : List Connection) :
    Registry × Option PeerInfo × Bool :=
  match conns with
  | [] => (reg, none, false)
  | c0 :: rest =>
    match regLookup reg k with
    | some p => (reg, some p, false)
    | none =>
      let p : PeerInfo :=
        { PublicKey := k, connectionActive := c0 :: rest,
          connectionInactive := [], connectionLatest := some c0 }
      ((k, p) :: reg, some p, true)

/-- A sequence of `PeerlistAdd` calls with one identity, returning the
final registry and each call's `(peer, added)` result. -/
def PeerlistAddSeq (k : Nat) : Registry → List (List Connection) →
    Registry × List (Option PeerInfo × Bool)
  | reg, [] => (reg, [])
  | reg, cs :: rest =>
    let r1 := PeerlistAdd reg k cs
    let r2 := PeerlistAddSeq k r1.1 rest
    (r2.1, (r1.2.1, r1.2.2) :: r2.2)

/-- Command code `CommandResponse` (Commands.go line 20). -/
def CommandResponse : Nat := 1

/-- Embedding of `cmdAnouncement` (Commands.go lines 41-57).  `peer` is
the peer the dispatcher resolved for the sender (`nil` when unknown).
A `peer.send` call (defined outside this slice; modelled from the spec
as transmitting on the peer's preferred connection) is recorded as an
event `(target peer key, command code)`.  Unknown sender: register via
`PeerlistAdd` and reply with Response only when newly added; known
sender: reply with Response unconditionally, registry untouched. -/
def cmdAnouncement (reg : Registry) (peer : Option PeerInfo) (senderKey : Nat)
    (conn : Connection) : Registry × List (Nat × Nat) :=
  match peer with
  | none =>
    let r := PeerlistAdd reg senderKey [conn]
    if r.2.2 then (r.1, [(senderKey, CommandResponse)]) else (r.1, [])
  | some p => (reg, [(p.PublicKey, CommandResponse)])

/-- A listener (Go struct `Network`): its id models the Go pointer, and
`iface` the name of the owning interface (`none` for wildcard binds). -/
structure NetworkEntry where
  id : Nat
  iface : Option String
deriving DecidableEq

/-- A Go slice of listeners: backing array plus length (the capacity is
the array length; `networkChangeInterfaceRemove` never grows the
slice). -/
structure GoSlice where
  arr : List NetworkEntry
  len : Nat
deriving DecidableEq

/-- The elements a Go slice exposes. -/
def GoSlice.view (s : GoSlice) : List NetworkEntry := s.arr.take s.len

/-- The match condition of Network Detection.go lines 185 and 198:
`network.iface != nil && network.iface.Name == iface`. -/
def ifaceMatches (e : NetworkEntry) (ifname : String) : Bool :=
  match e.iface with
  | some nm => nm == ifname
  | none => false

/-- The splice of Network Detection.go lines 188-193 with Go semantics:
`networksNew := networks6[:n]` reslices the same backing array, and when
`n < len(networks6)-1` the `append` of `networks6[n+1:]` copies those
elements down over positions starting at `n` in place (the capacity
suffices, so no reallocation happens). -/
def spliceOut (s : GoSlice) (n : Nat) : GoSlice :=
  if (n : Int) < (s.len : Int) - 1 then
    let xs := (s.arr.drop (n + 1)).take (s.len - (n + 1))
    { arr := s.arr.take n ++ xs ++ s.arr.drop (n + xs.length),
      len := n + xs.length }
  else
    { arr := s.arr, len := n }

/-- One `for n, network := range` loop of `networkChangeInterfaceRemove`
(Network Detection.go lines 184-195 or 197-208).  The range indices are
fixed from the slice length at entry, but each element is re-read from
the (possibly already spliced) backing array, exactly as the Go range
loop reads through the captured slice header.  Returns the slice as
left by the loop and the ids whose `Terminate` was invoked, in order. -/
def removeLoop (ifname : String) : List Nat → GoSlice → GoSlice × List Nat
  | [], s => (s, [])
  | n :: ns, s =>
    let e := s.arr.getD n { id := 0, iface := none }
    if ifaceMatches e ifname then
      let r := removeLoop ifname ns (spliceOut s n)
      (r.1, e.id :: r.2)
    else
      removeLoop ifname ns s

/-- Embedding of `networkChangeInterfaceRemove` (Network Detection.go
lines 178-209): run the removal loop over the IPv6 list, then over the
IPv4 list.  Returns both lists and the terminated ids in order. -/
def networkChangeInterfaceRemove (ifname : String) (networks6 networks4 : GoSlice) :
    GoSlice × GoSlice × List Nat :=
  let r6 := removeLoop ifname (List.range networks6.len) networks6
  let r4 := removeLoop ifname (List.range networks4.len) networks4
  (r6.1, r4.1, r6.2 ++ r4.2)

/-! Helper lemmas about connection-list primitives. -/

theorem mem_idsOf_cons (c : Connection) (rest : List Connection) (x : Nat) :
    x ∈ idsOf (c :: rest) ↔ c.id = x ∨ x ∈ idsOf rest := by
  simp [idsOf, eq_comm]

theorem findId_eq_none_iff (l : List Connection) (x : Nat) :
    findId l x = none ↔ x ∉ idsOf l := by
  induction l with
  | nil => simp [findId, idsOf]
  | cons c rest ih =>
    by_cases h : c.id = x
    · simp [findId, h, mem_idsOf_cons]
    · simp [findId, h, mem_idsOf_cons, ih]

theorem mem_idsOf_of_findId (l : List Connection) (x : Nat) (d : Connection)
    (h : findId l x = some d) : x ∈ idsOf l := by
  by_contra hx
  rw [← findId_eq_none_iff] at hx
  rw [h] at hx
  exact Option.noConfusion hx

theorem findId_mem (l : List Connection) (x : Nat) (c : Connection)
    (h : findId l x = some c) : c ∈ l ∧ c.id = x := by
  induction l with
  | nil => simp [findId] at h
  | cons d rest ih =>
    by_cases hd : d.id = x
    · simp only [findId, hd, if_true, Option.some.injEq] at h
      subst h
      exact ⟨List.mem_cons_self _ _, hd⟩
    · simp only [findId, hd, if_false] at h
      rcases ih h with ⟨h1, h2⟩
      exact ⟨List.mem_cons_of_mem _ h1, h2⟩

theorem findId_of_nodup (l : List Connection) (c : Connection)
    (hc : c ∈ l) (h : (idsOf l).Nodup) : findId l c.id = some c := by
  induction l with
  | nil => simp at hc
  | cons d rest ih =>
    rcases List.mem_cons.mp hc with hcd | hcr
    · subst hcd
      simp [findId]
    · simp only [idsOf, List.map_cons, List.nodup_cons] at h
      have hne : ¬ d.id = c.id := by
        intro he
        exact h.1 (he ▸ List.mem_map_of_mem Connection.id hcr)
      simp only [findId, hne, if_false]
      exact ih hcr h.2

theorem findId_filterNe_self (l : List Connection) (i : Nat) :
    findId (l.filter (fun d => d.id != i)) i = none := by
  induction l with
  | nil => simp [findId]
  | cons c rest ih =>
    by_cases h : c.id = i
    · simp [List.filter_cons, h, ih]
    · simp [List.filter_cons, bne_iff_ne, h, findId, ih]

theorem findId_filterNe_other (l : List Connection) (i x : Nat) (h : x ≠ i) :
    findId (l.filter (fun d => d.id != i)) x = findId l x := by
  induction l with
  | nil => simp
  | cons c rest ih =>
    by_cases hc : c.id = i
    · simp [List.filter_cons, hc, findId, Ne.symm h, ih]
    · by_cases hcx : c.id = x
      · simp [List.filter_cons, bne_iff_ne, hc, findId, hcx, h]
      · simp [List.filter_cons, bne_iff_ne, hc, findId, hcx, ih]

theorem findId_append_left (l1 l2 : List Connection) (x : Nat) (d : Connection)
    (h : findId l1 x = some d) : findId (l1 ++ l2) x = some d := by
  induction l1 with
  | nil => simp [findId] at h
  | cons c rest ih =>
    by_cases hc : c.id = x
    · simp only [findId, hc, if_true, Option.some.injEq] at h
      subst h
      simp [findId, hc]
    · simp only [findId, hc, if_false] at h
      simp only [List.cons_append, findId, hc, if_false]
      exact ih h

theorem findId_append_right (l1 l2 : List Connection) (x : Nat)
    (h : findId l1 x = none) : findId (l1 ++ l2) x = findId l2 x := by
  induction l1 with
  | nil => simp
  | cons c rest ih =>
    by_cases hc : c.id = x
    · simp [findId, hc] at h
    · simp only [findId, hc, if_false] at h
      simp only [List.cons_append, findId, hc, if_false]
      exact ih h

theorem idsOf_append (l1 l2 : List Connection) :
    idsOf (l1 ++ l2) = idsOf l1 ++ idsOf l2 := by
  simp [idsOf]

theorem idsOf_updateConn (l : List Connection) (c : Connection) :
    idsOf (updateConn l c) = idsOf l := by
  induction l with
  | nil => rfl
  | cons d rest ih =>
    by_cases h : d.id = c.id
    · simp only [updateConn, List.map_cons, idsOf] at ih ⊢
      simp [h, ih]
    · simp only [updateConn, List.map_cons, idsOf] at ih ⊢
      simp [h, ih]

theorem findId_updateConn_ne (l : List Connection) (c : Connection) (x : Nat)
    (h : x ≠ c.id) : findId (updateConn l c) x = findId l x := by
  induction l with
  | nil => rfl
  | cons d rest ih =>
    have hstep : updateConn (d :: rest) c =
        (if d.id = c.id then c else d) :: updateConn rest c := by
      simp [updateConn]
    rw [hstep]
    by_cases hd : d.id = c.id
    · rw [if_pos hd]
      have hcx : ¬ c.id = x := fun he => h he.symm
      have hdx : ¬ d.id = x := by
        rw [hd]
        exact hcx
      simp only [findId, hcx, if_false, hdx]
      exact ih
    · rw [if_neg hd]
      by_cases hdx : d.id = x
      · simp only [findId, hdx, if_true]
      · simp only [findId, hdx, if_false]
        exact ih

theorem findId_updateConn_self (l : List Connection) (c : Connection) (d : Connection)
    (h : findId l c.id = some d) : findId (updateConn l c) c.id = some c := by
  induction l with
  | nil => simp [findId] at h
  | cons e rest ih =>
    by_cases he : e.id = c.id
    · simp [updateConn, he, findId]
    · simp only [findId, he, if_false] at h
      have h2 := ih h
      simp only [updateConn, List.map_cons, he, if_false] at h2 ⊢
      simp only [findId, he, if_false]
      exact h2

theorem findId_updateConn_none (l : List Connection) (c : Connection) (x : Nat)
    (h : findId l x = none) : findId (updateConn l c) x = none := by
  rw [findId_eq_none_iff] at h ⊢
  rw [idsOf_updateConn]
  exact h

theorem findId_filter_none (l : List Connection) (p : Connection → Bool) (x : Nat)
    (h : findId l x = none) : findId (l.filter p) x = none := by
  rw [findId_eq_none_iff] at h ⊢
  intro hx
  apply h
  simp only [idsOf, List.mem_map] at hx ⊢
  rcases hx with ⟨d, hd, hdx⟩
  exact ⟨d, List.mem_of_mem_filter hd, hdx⟩

/-! Step-level lemmas about the keep-alive tick operations. -/

theorem updateConn_length (l : List Connection) (c : Connection) :
    (updateConn l c).length = l.length := List.length_map _ _

theorem idsOf_filter_subset (l : List Connection) (p : Connection → Bool) (x : Nat)
    (h : x ∈ idsOf (l.filter p)) : x ∈ idsOf l := by
  simp only [idsOf, List.mem_map] at h ⊢
  rcases h with ⟨d, hd, hdx⟩
  exact ⟨d, List.mem_of_mem_filter hd, hdx⟩

theorem invalidate_preserve (now : Int) (ps : PeerState) (c : Connection) (x : Nat)
    (h : x ≠ c.id) :
    findId (invalidateActiveConnection now ps c).connectionActive x =
      findId ps.connectionActive x ∧
    findId (invalidateActiveConnection now ps c).connectionInactive x =
      findId ps.connectionInactive x := by
  constructor
  · exact findId_filterNe_other _ _ _ h
  · show findId (ps.connectionInactive ++ [_]) x = _
    cases hI : findId ps.connectionInactive x with
    | none =>
      rw [findId_append_right _ _ _ hI]
      simp [findId, Ne.symm h]
    | some d =>
      rw [findId_append_left _ _ _ _ hI]

theorem invalidate_inactive_ids (now : Int) (ps : PeerState) (c : Connection) :
    idsOf (invalidateActiveConnection now ps c).connectionInactive =
      idsOf ps.connectionInactive ++ [c.id] := by
  simp [invalidateActiveConnection, idsOf]

theorem sendPing_preserve (now : Int) (err : Option String) (ps : PeerState)
    (c : Connection) (x : Nat) (h : x ≠ c.id) :
    findId (sendPing now err ps c).connectionActive x = findId ps.connectionActive x ∧
    findId (sendPing now err ps c).connectionInactive x = findId ps.connectionInactive x := by
  by_cases hc : (c.Status = ConnStatus.Active ∨ c.Status = ConnStatus.Redundant) ∧
      IsNetworkErrorFatal err = true
  · simp only [sendPing, if_pos hc]
    exact invalidate_preserve now ps _ x h
  · simp only [sendPing, if_neg hc]
    exact ⟨findId_updateConn_ne _ _ _ h, findId_updateConn_ne _ _ _ h⟩

theorem sendPing_active_none (now : Int) (err : Option String) (ps : PeerState)
    (c : Connection) (x : Nat) (h : findId ps.connectionActive x = none) :
    findId (sendPing now err ps c).connectionActive x = none := by
  by_cases hc : (c.Status = ConnStatus.Active ∨ c.Status = ConnStatus.Redundant) ∧
      IsNetworkErrorFatal err = true
  · simp only [sendPing, if_pos hc]
    exact findId_filter_none _ _ _ h
  · simp only [sendPing, if_neg hc]
    exact findId_updateConn_none _ _ _ h

theorem sendPing_inactive_status (now : Int) (err : Option String) (ps : PeerState)
    (c : Connection) (h : c.Status = ConnStatus.Inactive) :
    sendPing now err ps c =
      { connectionActive := updateConn ps.connectionActive { c with LastPingOut := now },
        connectionInactive := updateConn ps.connectionInactive { c with LastPingOut := now } } := by
  have hc : ¬((c.Status = ConnStatus.Active ∨ c.Status = ConnStatus.Redundant) ∧
      IsNetworkErrorFatal err = true) := by
    simp [h]
  simp only [sendPing, if_neg hc]

theorem removeInactive_preserve (ps : PeerState) (c : Connection) (x : Nat)
    (h : x ≠ c.id) :
    findId (removeInactiveConnection ps c).connectionActive x = findId ps.connectionActive x ∧
    findId (removeInactiveConnection ps c).connectionInactive x = findId ps.connectionInactive x :=
  ⟨rfl, findId_filterNe_other _ _ _ h⟩

theorem tickActive_cons (now : Int) (err : Nat → Option String) (c : Connection)
    (rest : List Connection) (ps : PeerState) :
    tickActive now err (c :: rest) ps =
      if c.LastPacketIn < (if c.Status = ConnStatus.Redundant then thresholdInvalidate2 now
          else thresholdInvalidate1 now) then
        tickActive now err rest (invalidateActiveConnection now ps c)
      else if c.LastPacketIn < (if c.Status = ConnStatus.Redundant then thresholdPingOut2 now
            else thresholdPingOut1 now) ∧
          c.LastPingOut < (if c.Status = ConnStatus.Redundant then thresholdPingOut2 now
            else thresholdPingOut1 now) then
        ((tickActive now err rest (sendPing now (err c.id) ps c)).1,
         c.id :: (tickActive now err rest (sendPing now (err c.id) ps c)).2)
      else
        tickActive now err rest ps := rfl

theorem tickInactive_cons (now : Int) (err : Nat → Option String) (c : Connection)
    (rest : List Connection) (ps : PeerState) :
    tickInactive now err (c :: rest) ps =
      if (1 ≤ ps.connectionActive.length ∨ 2 < ps.connectionInactive.length) ∧
          c.Expires < now then
        tickInactive now err rest (removeInactiveConnection ps c)
      else if c.LastPingOut < thresholdPingOut1 now then
        ((tickInactive now err rest (sendPing now (err c.id) ps c)).1,
         c.id :: (tickInactive now err rest (sendPing now (err c.id) ps c)).2)
      else
        tickInactive now err rest ps := rfl

theorem tickActive_append (now : Int) (err : Nat → Option String) (l1 l2 : List Connection) :
    ∀ ps : PeerState,
    tickActive now err (l1 ++ l2) ps =
      ((tickActive now err l2 (tickActive now err l1 ps).1).1,
       (tickActive now err l1 ps).2 ++ (tickActive now err l2 (tickActive now err l1 ps).1).2) := by
  induction l1 with
  | nil => intro ps; simp [tickActive]
  | cons c rest ih =>
    intro ps
    rw [List.cons_append, tickActive_cons, tickActive_cons]
    by_cases h1 : c.LastPacketIn < (if c.Status = ConnStatus.Redundant then thresholdInvalidate2 now
        else thresholdInvalidate1 now)
    · rw [if_pos h1, if_pos h1, ih]
    · rw [if_neg h1, if_neg h1]
      by_cases h2 : c.LastPacketIn < (if c.Status = ConnStatus.Redundant then thresholdPingOut2 now
            else thresholdPingOut1 now) ∧
          c.LastPingOut < (if c.Status = ConnStatus.Redundant then thresholdPingOut2 now
            else thresholdPingOut1 now)
      · rw [if_pos h2, if_pos h2, ih]
        simp
      · rw [if_neg h2, if_neg h2, ih]

theorem tickInactive_append (now : Int) (err : Nat → Option String) (l1 l2 : List Connection) :
    ∀ ps : PeerState,
    tickInactive now err (l1 ++ l2) ps =
      ((tickInactive now err l2 (tickInactive now err l1 ps).1).1,
       (tickInactive now err l1 ps).2 ++
         (tickInactive now err l2 (tickInactive now err l1 ps).1).2) := by
  induction l1 with
  | nil => intro ps; simp [tickInactive]
  | cons c rest ih =>
    intro ps
    rw [List.cons_append, tickInactive_cons, tickInactive_cons]
    by_cases h1 : (1 ≤ ps.connectionActive.length ∨ 2 < ps.connectionInactive.length) ∧
        c.Expires < now
    · rw [if_pos h1, if_pos h1, ih]
    · rw [if_neg h1, if_neg h1]
      by_cases h2 : c.LastPingOut < thresholdPingOut1 now
      · rw [if_pos h2, if_pos h2, ih]
        simp
      · rw [if_neg h2, if_neg h2, ih]

theorem tickActive_preserve (now : Int) (err : Nat → Option String) (snap : List Connection) :
    ∀ (ps : PeerState) (x : Nat), x ∉ idsOf snap →
    findId (tickActive now err snap ps).1.connectionActive x = findId ps.connectionActive x ∧
    findId (tickActive now err snap ps).1.connectionInactive x = findId ps.connectionInactive x ∧
    x ∉ (tickActive now err snap ps).2 := by
  induction snap with
  | nil => intro ps x _; simp [tickActive]
  | cons c rest ih =>
    intro ps x hx
    have hxc : ¬ c.id = x := fun he => hx ((mem_idsOf_cons c rest x).mpr (Or.inl he))
    have hxc2 : x ≠ c.id := fun he => hxc he.symm
    have hxr : x ∉ idsOf rest := fun hm => hx ((mem_idsOf_cons c rest x).mpr (Or.inr hm))
    rw [tickActive_cons]
    by_cases h1 : c.LastPacketIn < (if c.Status = ConnStatus.Redundant then thresholdInvalidate2 now
        else thresholdInvalidate1 now)
    · rw [if_pos h1]
      have hi := invalidate_preserve now ps c x hxc2
      have ht := ih (invalidateActiveConnection now ps c) x hxr
      exact ⟨ht.1.trans hi.1, ht.2.1.trans hi.2, ht.2.2⟩
    · rw [if_neg h1]
      by_cases h2 : c.LastPacketIn < (if c.Status = ConnStatus.Redundant then thresholdPingOut2 now
            else thresholdPingOut1 now) ∧
          c.LastPingOut < (if c.Status = ConnStatus.Redundant then thresholdPingOut2 now
            else thresholdPingOut1 now)
      · rw [if_pos h2]
        have hs := sendPing_preserve now (err c.id) ps c x hxc2
        have ht := ih (sendPing now (err c.id) ps c) x hxr
        refine ⟨ht.1.trans hs.1, ht.2.1.trans hs.2, ?_⟩
        simp only [List.mem_cons, not_or]
        exact ⟨hxc2, ht.2.2⟩
      · rw [if_neg h2]
        exact ih ps x hxr

theorem tickInactive_preserve (now : Int) (err : Nat → Option String) (snap : List Connection) :
    ∀ (ps : PeerState) (x : Nat), x ∉ idsOf snap →
    findId (tickInactive now err snap ps).1.connectionActive x = findId ps.connectionActive x ∧
    findId (tickInactive now err snap ps).1.connectionInactive x = findId ps.connectionInactive x ∧
    x ∉ (tickInactive now err snap ps).2 := by
  induction snap with
  | nil => intro ps x _; simp [tickInactive]
  | cons c rest ih =>
    intro ps x hx
    have hxc : ¬ c.id = x := fun he => hx ((mem_idsOf_cons c rest x).mpr (Or.inl he))
    have hxc2 : x ≠ c.id := fun he => hxc he.symm
    have hxr : x ∉ idsOf rest := fun hm => hx ((mem_idsOf_cons c rest x).mpr (Or.inr hm))
    rw [tickInactive_cons]
    by_cases h1 : (1 ≤ ps.connectionActive.length ∨ 2 < ps.connectionInactive.length) ∧
        c.Expires < now
    · rw [if_pos h1]
      have hr := removeInactive_preserve ps c x hxc2
      have ht := ih (removeInactiveConnection ps c) x hxr
      exact ⟨ht.1.trans hr.1, ht.2.1.trans hr.2, ht.2.2⟩
    · rw [if_neg h1]
      by_cases h2 : c.LastPingOut < thresholdPingOut1 now
      · rw [if_pos h2]
        have hs := sendPing_preserve now (err c.id) ps c x hxc2
        have ht := ih (sendPing now (err c.id) ps c) x hxr
        refine ⟨ht.1.trans hs.1, ht.2.1.trans hs.2, ?_⟩
        simp only [List.mem_cons, not_or]
        exact ⟨hxc2, ht.2.2⟩
      · rw [if_neg h2]
        exact ih ps x hxr

theorem tickInactive_active_none (now : Int) (err : Nat → Option String)
    (snap : List Connection) :
    ∀ (ps : PeerState) (x : Nat), findId ps.connectionActive x = none →
    findId (tickInactive now err snap ps).1.connectionActive x = none := by
  induction snap with
  | nil => intro ps x h; simpa [tickInactive] using h
  | cons c rest ih =>
    intro ps x h
    rw [tickInactive_cons]
    by_cases h1 : (1 ≤ ps.connectionActive.length ∨ 2 < ps.connectionInactive.length) ∧
        c.Expires < now
    · rw [if_pos h1]
      exact ih (removeInactiveConnection ps c) x h
    · rw [if_neg h1]
      by_cases h2 : c.LastPingOut < thresholdPingOut1 now
      · rw [if_pos h2]
        exact ih (sendPing now (err c.id) ps c) x (sendPing_active_none now (err c.id) ps c x h)
      · rw [if_neg h2]
        exact ih ps x h

theorem sendPing_inactive_ids_cases (now : Int) (err : Option String) (ps : PeerState)
    (c : Connection) :
    idsOf (sendPing now err ps c).connectionInactive =
      idsOf ps.connectionInactive ++ [c.id] ∨
    idsOf (sendPing now err ps c).connectionInactive = idsOf ps.connectionInactive := by
  by_cases hc : (c.Status = ConnStatus.Active ∨ c.Status = ConnStatus.Redundant) ∧
      IsNetworkErrorFatal err = true
  · left
    simp only [sendPing, if_pos hc]
    exact invalidate_inactive_ids now ps _
  · right
    simp only [sendPing, if_neg hc]
    exact idsOf_updateConn _ _

theorem sendPing_lengths_inactive (now : Int) (err : Option String) (ps : PeerState)
    (c : Connection) (h : c.Status = ConnStatus.Inactive) :
    (sendPing now err ps c).connectionActive.length = ps.connectionActive.length ∧
    (sendPing now err ps c).connectionInactive.length = ps.connectionInactive.length := by
  rw [sendPing_inactive_status now err ps c h]
  exact ⟨updateConn_length _ _, updateConn_length _ _⟩

theorem tickActive_inactive_nodup (now : Int) (err : Nat → Option String)
    (snap : List Connection) :
    ∀ ps : PeerState,
    (idsOf snap).Nodup →
    (idsOf ps.connectionInactive).Nodup →
    (∀ i ∈ idsOf snap, i ∉ idsOf ps.connectionInactive) →
    (idsOf (tickActive now err snap ps).1.connectionInactive).Nodup := by
  induction snap with
  | nil => intro ps _ hI _; simpa [tickActive] using hI
  | cons c rest ih =>
    intro ps hsnap hI hdisj
    have hsnap2 : (c.id :: idsOf rest).Nodup := hsnap
    have hcrest : c.id ∉ idsOf rest := (List.nodup_cons.mp hsnap2).1
    have hrestnodup : (idsOf rest).Nodup := (List.nodup_cons.mp hsnap2).2
    have hchead : c.id ∉ idsOf ps.connectionInactive :=
      hdisj c.id (List.mem_cons_self _ _)
    have hdisjrest : ∀ i ∈ idsOf rest, i ∉ idsOf ps.connectionInactive :=
      fun i hi => hdisj i (List.mem_cons_of_mem _ hi)
    have hmain : ∀ ps2 : PeerState,
        (idsOf ps2.connectionInactive = idsOf ps.connectionInactive ++ [c.id] ∨
         idsOf ps2.connectionInactive = idsOf ps.connectionInactive) →
        (idsOf (tickActive now err rest ps2).1.connectionInactive).Nodup := by
      intro ps2 hcase
      rcases hcase with he | he
      · apply ih ps2 hrestnodup
        · rw [he]
          rw [List.nodup_append]
          refine ⟨hI, List.nodup_singleton _, ?_⟩
          intro a ha hb
          rw [List.mem_singleton] at hb
          exact hchead (hb ▸ ha)
        · intro i hi
          rw [he]
          simp only [List.mem_append, List.mem_singleton]
          rintro (hm | hm)
          · exact hdisjrest i hi hm
          · exact hcrest (hm ▸ hi)
      · apply ih ps2 hrestnodup
        · rw [he]
          exact hI
        · intro i hi
          rw [he]
          exact hdisjrest i hi
    rw [tickActive_cons]
    by_cases h1 : c.LastPacketIn < (if c.Status = ConnStatus.Redundant then thresholdInvalidate2 now
        else thresholdInvalidate1 now)
    · rw [if_pos h1]
      exact hmain _ (Or.inl (invalidate_inactive_ids now ps c))
    · rw [if_neg h1]
      by_cases h2 : c.LastPacketIn < (if c.Status = ConnStatus.Redundant then thresholdPingOut2 now
            else thresholdPingOut1 now) ∧
          c.LastPingOut < (if c.Status = ConnStatus.Redundant then thresholdPingOut2 now
            else thresholdPingOut1 now)
      · rw [if_pos h2]
        exact hmain _ (sendPing_inactive_ids_cases now (err c.id) ps c)
      · rw [if_neg h2]
        exact hmain _ (Or.inr rfl)

theorem tickInactive_no_add (now : Int) (err : Nat → Option String)
    (snap : List Connection) :
    ∀ (ps : PeerState) (x : Nat),
    (∀ d ∈ snap, d.Status = ConnStatus.Inactive) →
    x ∉ idsOf ps.connectionInactive →
    x ∉ idsOf (tickInactive now err snap ps).1.connectionInactive := by
  induction snap with
  | nil => intro ps x _ h; simpa [tickInactive] using h
  | cons c rest ih =>
    intro ps x hst h
    have hc : c.Status = ConnStatus.Inactive := hst c (List.mem_cons_self _ _)
    have hrest : ∀ d ∈ rest, d.Status = ConnStatus.Inactive :=
      fun d hm => hst d (List.mem_cons_of_mem _ hm)
    rw [tickInactive_cons]
    by_cases h1 : (1 ≤ ps.connectionActive.length ∨ 2 < ps.connectionInactive.length) ∧
        c.Expires < now
    · rw [if_pos h1]
      apply ih (removeInactiveConnection ps c) x hrest
      intro hm
      exact h (idsOf_filter_subset _ _ _ hm)
    · rw [if_neg h1]
      by_cases h2 : c.LastPingOut < thresholdPingOut1 now
      · rw [if_pos h2]
        show x ∉ idsOf (tickInactive now err rest (sendPing now (err c.id) ps c)).1.connectionInactive
        apply ih _ x hrest
        rw [sendPing_inactive_status now (err c.id) ps c hc]
        show x ∉ idsOf (updateConn ps.connectionInactive _)
        rw [idsOf_updateConn]
        exact h
      · rw [if_neg h2]
        exact ih ps x hrest h

theorem tickInactive_lengths (now : Int) (err : Nat → Option String)
    (snap : List Connection) :
    ∀ ps : PeerState,
    (∀ d ∈ snap, d.Status = ConnStatus.Inactive ∧ ¬ d.Expires < now) →
    (tickInactive now err snap ps).1.connectionActive.length = ps.connectionActive.length ∧
    (tickInactive now err snap ps).1.connectionInactive.length =
      ps.connectionInactive.length := by
  induction snap with
  | nil => intro ps _; simp [tickInactive]
  | cons c rest ih =>
    intro ps hd
    have hc := hd c (List.mem_cons_self _ _)
    have hrest : ∀ d ∈ rest, d.Status = ConnStatus.Inactive ∧ ¬ d.Expires < now :=
      fun d hm => hd d (List.mem_cons_of_mem _ hm)
    rw [tickInactive_cons]
    have h1 : ¬((1 ≤ ps.connectionActive.length ∨ 2 < ps.connectionInactive.length) ∧
        c.Expires < now) := fun hcon => hc.2 hcon.2
    rw [if_neg h1]
    by_cases h2 : c.LastPingOut < thresholdPingOut1 now
    · rw [if_pos h2]
      have hs := sendPing_lengths_inactive now (err c.id) ps c hc.1
      have hih := ih (sendPing now (err c.id) ps c) hrest
      exact ⟨hih.1.trans hs.1, hih.2.trans hs.2⟩
    · rw [if_neg h2]
      exact ih ps hrest

/-! Registry lemmas. -/

theorem countKey_cons (e : Nat × PeerInfo) (rest : Registry) (k : Nat) :
    countKey (e :: rest) k = (if e.1 = k then 1 else 0) + countKey rest k := by
  by_cases he : e.1 = k
  · simp [countKey, List.filter_cons, he]
    omega
  · simp [countKey, List.filter_cons, he]

theorem regLookup_none_countKey (reg : Registry) (k : Nat)
    (h : regLookup reg k = none) : countKey reg k = 0 := by
  induction reg with
  | nil => rfl
  | cons e rest ih =>
    by_cases he : e.1 = k
    · rw [show regLookup (e :: rest) k = some e.2 from by simp [regLookup, he]] at h
      exact Option.noConfusion h
    · rw [show regLookup (e :: rest) k = regLookup rest k from by simp [regLookup, he]] at h
      rw [countKey_cons, if_neg he, ih h]

theorem PeerlistAdd_existing (reg : Registry) (k : Nat) (p : PeerInfo)
    (cs : List Connection) (h : regLookup reg k = some p) (hcs : cs ≠ []) :
    PeerlistAdd reg k cs = (reg, some p, false) := by
  match cs with
  | [] => exact absurd rfl hcs
  | c0 :: rest => simp [PeerlistAdd, h]

theorem PeerlistAddSeq_existing (k : Nat) (l : List (List Connection)) :
    ∀ (reg : Registry) (p : PeerInfo), regLookup reg k = some p →
    (∀ cs ∈ l, cs ≠ []) →
    PeerlistAddSeq k reg l = (reg, l.map (fun _ => (some p, false))) := by
  induction l with
  | nil => intro reg p _ _; rfl
  | cons cs rest ih =>
    intro reg p h hne
    have h1 := PeerlistAdd_existing reg k p cs h (hne cs (List.mem_cons_self _ _))
    simp only [PeerlistAddSeq, h1]
    rw [ih reg p h (fun l2 hm => hne l2 (List.mem_cons_of_mem _ hm))]
    simp

/-! Claim theorems, counterexamples and witnesses. -/

/-- C1 counterexample: `IsNetworkErrorFatal` classifies the platform
pattern "requested address is not valid in its context" as FATAL
(Network Detection.go line 86 returns `true` on the pattern match), and
classifies every other non-nil send failure as NOT fatal — the opposite
of the claim on both counts. -/
theorem IsNetworkErrorFatal_claim_counterexample :
    IsNetworkErrorFatal
        (some "wsasendto: The requested address is not valid in its context") = true ∧
    IsNetworkErrorFatal (some "connection refused") = false := by
  constructor
  · decide
  · decide

/-- C1 (amended): `IsNetworkErrorFatal` reports an error fatal exactly
when it is non-nil and its text contains the pattern "requested address
is not valid in its context"; consequently `sendPing` on an
Active/Redundant connection invalidates that connection exactly for the
pattern-matching errors (the original claim asserts the opposite
polarity). -/
theorem IsNetworkErrorFatal_pattern_exactly (err : Option String) (now : Int)
    (ps : PeerState) (c : Connection)
    (hmem : c ∈ ps.connectionActive)
    (hnodup : (idsOf (ps.connectionActive ++ ps.connectionInactive)).Nodup)
    (hst : c.Status = ConnStatus.Active ∨ c.Status = ConnStatus.Redundant) :
    (IsNetworkErrorFatal err = true ↔
      ∃ s, err = some s ∧ strContainsSub s netErrPattern = true) ∧
    (findId (sendPing now err ps c).connectionActive c.id = none ↔
      IsNetworkErrorFatal err = true) := by
  constructor
  · cases err with
    | none => simp [IsNetworkErrorFatal]
    | some s => simp [IsNetworkErrorFatal]
  · have hA : (idsOf ps.connectionActive).Nodup := by
      rw [idsOf_append] at hnodup
      exact (List.nodup_append.mp hnodup).1
    have hfind : findId ps.connectionActive c.id = some c := findId_of_nodup _ _ hmem hA
    by_cases hf : IsNetworkErrorFatal err = true
    · have hcond : (c.Status = ConnStatus.Active ∨ c.Status = ConnStatus.Redundant) ∧
          IsNetworkErrorFatal err = true := ⟨hst, hf⟩
      simp only [sendPing, if_pos hcond]
      show (findId ((invalidateActiveConnection now ps _).connectionActive) c.id = none) ↔ _
      simp only [invalidateActiveConnection]
      rw [show findId (ps.connectionActive.filter
          (fun d => d.id != ({ c with LastPingOut := now } : Connection).id)) c.id = none from
        findId_filterNe_self _ _]
      simp [hf]
    · have hcond : ¬((c.Status = ConnStatus.Active ∨ c.Status = ConnStatus.Redundant) ∧
          IsNetworkErrorFatal err = true) := fun hcon => hf hcon.2
      simp only [sendPing, if_neg hcond]
      have hupd := findId_updateConn_self ps.connectionActive
        ({ c with LastPingOut := now }) c hfind
      show (findId (updateConn ps.connectionActive _) c.id = none) ↔ _
      rw [hupd]
      simp [hf]

/-- Witness for C1's amended theorem at a concrete non-pattern error on a
singleton active list. -/
theorem IsNetworkErrorFatal_pattern_exactly_witness :
    (IsNetworkErrorFatal (some "connection refused") = true ↔
      ∃ s, (some "connection refused" : Option String) = some s ∧
        strContainsSub s netErrPattern = true) ∧
    (findId (sendPing 0 (some "connection refused")
        { connectionActive := [⟨1, ConnStatus.Active, 0, 0, 0⟩],
          connectionInactive := [] }
        ⟨1, ConnStatus.Active, 0, 0, 0⟩).connectionActive
      (⟨1, ConnStatus.Active, 0, 0, 0⟩ : Connection).id = none ↔
      IsNetworkErrorFatal (some "connection refused") = true) :=
  IsNetworkErrorFatal_pattern_exactly (some "connection refused") 0
    { connectionActive := [⟨1, ConnStatus.Active, 0, 0, 0⟩], connectionInactive := [] }
    ⟨1, ConnStatus.Active, 0, 0, 0⟩ (by decide) (by decide) (Or.inl rfl)

/-- C3: starting from a registry without identity `k`, a sequence of
`PeerlistAdd` calls with identity `k` and non-empty connection lists
leaves exactly one record under `k`, the registry equal to what the
first call produced (later calls change nothing), and only the first
call reports added: every later call returns the existing record with
`added = false`. -/
theorem PeerlistAdd_unique_identity (reg : Registry) (k : Nat) (cs : List Connection)
    (rest : List (List Connection))
    (hk : regLookup reg k = none) (hcs : cs ≠ [])
    (hrest : ∀ l ∈ rest, l ≠ []) :
    countKey (PeerlistAddSeq k reg (cs :: rest)).1 k = 1 ∧
    (PeerlistAddSeq k reg (cs :: rest)).1 = (PeerlistAdd reg k cs).1 ∧
    (PeerlistAdd reg k cs).2.2 = true ∧
    (PeerlistAddSeq k reg (cs :: rest)).2 =
      ((PeerlistAdd reg k cs).2.1, true) ::
        rest.map (fun _ => ((PeerlistAdd reg k cs).2.1, false)) := by
  match cs with
  | [] => exact absurd rfl hcs
  | c0 :: cs0 =>
    have hadd : PeerlistAdd reg k (c0 :: cs0) =
        ((k, { PublicKey := k, connectionActive := c0 :: cs0, connectionInactive := [],
               connectionLatest := some c0 }) :: reg,
         some { PublicKey := k, connectionActive := c0 :: cs0, connectionInactive := [],
                connectionLatest := some c0 }, true) := by
      simp [PeerlistAdd, hk]
    have hlook : regLookup ((k, ({ PublicKey := k,
                                   connectionActive := c0 :: cs0,
                                   connectionInactive := [],
                                   connectionLatest := some c0 } : PeerInfo)) :: reg) k =
        some { PublicKey := k, connectionActive := c0 :: cs0, connectionInactive := [],
               connectionLatest := some c0 } := by
      simp [regLookup]
    have hseq := PeerlistAddSeq_existing k rest _ _ hlook hrest
    simp only [PeerlistAddSeq, hadd, hseq]
    refine ⟨?_, ?_, ?_, ?_⟩
    · rw [countKey_cons, if_pos rfl, regLookup_none_countKey reg k hk]
    · trivial
    · trivial
    · trivial

/-- Witness for C3: two adds of identity 9 on an initially empty
registry. -/
theorem PeerlistAdd_unique_identity_witness :
    countKey (PeerlistAddSeq 9 []
      [[(⟨1, ConnStatus.Active, 0, 0, 0⟩ : Connection)], [(⟨2, ConnStatus.Active, 0, 0, 0⟩ : Connection)]]).1 9 = 1 ∧
    (PeerlistAddSeq 9 []
      [[(⟨1, ConnStatus.Active, 0, 0, 0⟩ : Connection)], [(⟨2, ConnStatus.Active, 0, 0, 0⟩ : Connection)]]).1 =
      (PeerlistAdd [] 9 [(⟨1, ConnStatus.Active, 0, 0, 0⟩ : Connection)]).1 ∧
    (PeerlistAdd [] 9 [(⟨1, ConnStatus.Active, 0, 0, 0⟩ : Connection)]).2.2 = true ∧
    (PeerlistAddSeq 9 []
      [[(⟨1, ConnStatus.Active, 0, 0, 0⟩ : Connection)], [(⟨2, ConnStatus.Active, 0, 0, 0⟩ : Connection)]]).2 =
      ((PeerlistAdd [] 9 [(⟨1, ConnStatus.Active, 0, 0, 0⟩ : Connection)]).2.1, true) ::
        [[(⟨2, ConnStatus.Active, 0, 0, 0⟩ : Connection)]].map
          (fun _ => ((PeerlistAdd [] 9 [(⟨1, ConnStatus.Active, 0, 0, 0⟩ : Connection)]).2.1, false)) :=
  PeerlistAdd_unique_identity [] 9 [(⟨1, ConnStatus.Active, 0, 0, 0⟩ : Connection)]
    [[(⟨2, ConnStatus.Active, 0, 0, 0⟩ : Connection)]] rfl (by decide) (by decide)

/-- C4: on an empty registry, handling an Announcement from identity `K`
received on connection `C` with an unresolved peer leaves exactly the
one record for `K` with active connection list `[C]` and emits exactly
one Response to `K`; with an already-resolved peer the registry is
untouched and exactly one Response is emitted unconditionally. -/
theorem cmdAnouncement_handshake (K : Nat) (C : Connection) (reg : Registry)
    (p : PeerInfo) :
    cmdAnouncement [] none K C =
      ([(K, { PublicKey := K, connectionActive := [C], connectionInactive := [],
              connectionLatest := some C })], [(K, CommandResponse)]) ∧
    cmdAnouncement reg (some p) K C = (reg, [(p.PublicKey, CommandResponse)]) :=
  ⟨rfl, rfl⟩

/-- C8 witness computation (code bug): two IPv6 listeners (ids 1 and 2)
both owned by interface "eth0"; removing "eth0" terminates both exactly
once (event list `[1, 2]`) but the in-place slice splice leaves listener
2 still registered: the final visible IPv6 list is `[listener 2]`, not
`[]` as the claim requires. -/
theorem interfaceRemove_leaves_terminated_listener :
    networkChangeInterfaceRemove "eth0"
        { arr := [{ id := 1, iface := some "eth0" }, { id := 2, iface := some "eth0" }],
          len := 2 }
        { arr := [], len := 0 } =
      ({ arr := [{ id := 2, iface := some "eth0" }, { id := 2, iface := some "eth0" }],
         len := 1 },
       { arr := [], len := 0 }, [1, 2]) ∧
    (networkChangeInterfaceRemove "eth0"
        { arr := [{ id := 1, iface := some "eth0" }, { id := 2, iface := some "eth0" }],
          len := 2 }
        { arr := [], len := 0 }).1.view =
      [{ id := 2, iface := some "eth0" }] := by
  constructor
  · decide
  · decide

/-- C9: `PeerlistAdd` with an empty connection list returns the registry
unchanged with no record and `added = false`; and `PeerlistAdd` never
creates a record with an empty active connection list (the
every-peer-has-a-connection invariant is preserved by every call). -/
theorem PeerlistAdd_empty_connections (reg : Registry) (k : Nat) (cs : List Connection) :
    PeerlistAdd reg k [] = (reg, none, false) ∧
    ((∀ e ∈ reg, e.2.connectionActive ≠ []) →
      ∀ e ∈ (PeerlistAdd reg k cs).1, e.2.connectionActive ≠ []) := by
  constructor
  · rfl
  · intro hinv e he
    match cs with
    | [] => exact hinv e he
    | c0 :: cs0 =>
      cases hl : regLookup reg k with
      | some p =>
        simp only [PeerlistAdd, hl] at he
        exact hinv e he
      | none =>
        simp only [PeerlistAdd, hl] at he
        rcases List.mem_cons.mp he with he1 | he2
        · subst he1
          simp
        · exact hinv e he2

/-- Witness for C9 at concrete inputs. -/
theorem PeerlistAdd_empty_connections_witness :
    PeerlistAdd [] 5 [] = ([], none, false) ∧
    (∀ e ∈ (PeerlistAdd [] 5 [⟨1, ConnStatus.Active, 0, 0, 0⟩]).1,
      e.2.connectionActive ≠ []) :=
  ⟨(PeerlistAdd_empty_connections [] 5 []).1,
   (PeerlistAdd_empty_connections [] 5 [⟨1, ConnStatus.Active, 0, 0, 0⟩]).2 (by simp)⟩

/-- C10: a `PeerlistAdd` call that creates a new record from connections
`c0 :: cs` makes its active list exactly `c0 :: cs` in order, its
inactive list empty, and its latest-connection reference the first
supplied connection `c0`. -/
theorem PeerlistAdd_new_record (reg : Registry) (k : Nat) (c0 : Connection)
    (cs : List Connection) (hk : regLookup reg k = none) :
    PeerlistAdd reg k (c0 :: cs) =
      ((k, { PublicKey := k, connectionActive := c0 :: cs, connectionInactive := [],
             connectionLatest := some c0 }) :: reg,
       some { PublicKey := k, connectionActive := c0 :: cs, connectionInactive := [],
              connectionLatest := some c0 }, true) := by
  simp [PeerlistAdd, hk]

/-- Witness for C10 with two connections on an empty registry. -/
theorem PeerlistAdd_new_record_witness :
    PeerlistAdd [] 7 [⟨1, ConnStatus.Active, 0, 0, 0⟩, ⟨2, ConnStatus.Active, 0, 0, 0⟩] =
      ((7, { PublicKey := 7,
             connectionActive := [⟨1, ConnStatus.Active, 0, 0, 0⟩,
               ⟨2, ConnStatus.Active, 0, 0, 0⟩],
             connectionInactive := [],
             connectionLatest := some ⟨1, ConnStatus.Active, 0, 0, 0⟩ }) :: [],
       some { PublicKey := 7,
              connectionActive := [⟨1, ConnStatus.Active, 0, 0, 0⟩,
                ⟨2, ConnStatus.Active, 0, 0, 0⟩],
              connectionInactive := [],
              connectionLatest := some ⟨1, ConnStatus.Active, 0, 0, 0⟩ }, true) :=
  PeerlistAdd_new_record [] 7 ⟨1, ConnStatus.Active, 0, 0, 0⟩
    [⟨2, ConnStatus.Active, 0, 0, 0⟩] rfl

/-- C2 counterexample: a peer with no active connection and three
inactive connections of which exactly one (id 1) is expired.  The claim
predicts id 1 survives the tick (the peer has only two OTHER inactive
connections, not more than two), but the code purges it: line 135 counts
the candidate itself, so the guard is `3 > 2`. -/
theorem tickInactive_purge_counterexample :
    idsOf (tickInactive 0 (fun _ => none)
      [⟨1, ConnStatus.Inactive, 0, 0, -5⟩, ⟨2, ConnStatus.Inactive, 0, 0, 5⟩,
       ⟨3, ConnStatus.Inactive, 0, 0, 5⟩]
      { connectionActive := [],
        connectionInactive := [⟨1, ConnStatus.Inactive, 0, 0, -5⟩,
          ⟨2, ConnStatus.Inactive, 0, 0, 5⟩,
          ⟨3, ConnStatus.Inactive, 0, 0, 5⟩] }).1.connectionInactive = [2, 3] ∧
    ¬(1 ≤ (0 : Nat) ∨ 2 < (2 : Nat)) := by
  constructor
  · decide
  · decide

/-- C5 counterexample: an Active connection with `LastPacketIn = now-25`
and a stale `LastPingOut = now-100` is moved to the inactive list by the
active pass AND pinged by the inactive pass of the very same tick (the
inactive-pass ping event list is `[1]`), against the claim that no ping
is sent for that connection in that tick. -/
theorem tick_invalidate_and_ping_counterexample :
    tickPeer 0 (fun _ => none)
      { connectionActive := [⟨1, ConnStatus.Active, -25, -100, 0⟩],
        connectionInactive := [] } =
      ({ connectionActive := [],
         connectionInactive := [⟨1, ConnStatus.Inactive, -25, 0, 120⟩] },
       [], [1]) := by decide

theorem idsOf_cons (c : Connection) (l : List Connection) :
    idsOf (c :: l) = c.id :: idsOf l := rfl

/-- C7: every `sendPing` call stamps the connection's `LastPingOut` with
the current time whether or not the send failed; when additionally the
error is fatal and the status is Active or Redundant, the connection is
moved to the inactive list immediately (with its new Inactive status),
irrespective of any timing threshold. -/
theorem sendPing_always_stamps (now : Int) (err : Option String)
    (ps : PeerState) (c : Connection)
    (hmem : c ∈ ps.connectionActive)
    (hnodup : (idsOf (ps.connectionActive ++ ps.connectionInactive)).Nodup) :
    (¬((c.Status = ConnStatus.Active ∨ c.Status = ConnStatus.Redundant) ∧
        IsNetworkErrorFatal err = true) →
      findId (sendPing now err ps c).connectionActive c.id =
        some { c with LastPingOut := now } ∧
      findId (sendPing now err ps c).connectionInactive c.id = none) ∧
    (((c.Status = ConnStatus.Active ∨ c.Status = ConnStatus.Redundant) ∧
        IsNetworkErrorFatal err = true) →
      findId (sendPing now err ps c).connectionActive c.id = none ∧
      findId (sendPing now err ps c).connectionInactive c.id =
        some { c with LastPingOut := now, Status := ConnStatus.Inactive,
                      Expires := now + connectionRemove }) := by
  have hnodup2 := hnodup
  rw [idsOf_append, List.nodup_append] at hnodup2
  obtain ⟨hndA, hndI, hdisjAI⟩ := hnodup2
  have hfindA : findId ps.connectionActive c.id = some c := findId_of_nodup _ _ hmem hndA
  have hcidA : c.id ∈ idsOf ps.connectionActive := List.mem_map_of_mem Connection.id hmem
  have hfindI : findId ps.connectionInactive c.id = none :=
    (findId_eq_none_iff _ _).mpr (hdisjAI hcidA)
  constructor
  · intro hcond
    simp only [sendPing, if_neg hcond]
    constructor
    · exact findId_updateConn_self _ _ _ hfindA
    · exact findId_updateConn_none _ _ _ hfindI
  · intro hcond
    simp only [sendPing, if_pos hcond]
    constructor
    · exact findId_filterNe_self _ _
    · show findId (ps.connectionInactive ++ [_]) c.id = _
      rw [findId_append_right _ _ _ hfindI]
      simp [findId]

/-- Witness for C7 at a pattern (fatal) send error on a singleton active
list. -/
theorem sendPing_always_stamps_witness :
    (¬(((⟨1, ConnStatus.Active, 0, 0, 0⟩ : Connection).Status = ConnStatus.Active ∨
        (⟨1, ConnStatus.Active, 0, 0, 0⟩ : Connection).Status = ConnStatus.Redundant) ∧
        IsNetworkErrorFatal (some "requested address is not valid in its context") = true) →
      findId (sendPing 5 (some "requested address is not valid in its context")
          { connectionActive := [⟨1, ConnStatus.Active, 0, 0, 0⟩], connectionInactive := [] }
          ⟨1, ConnStatus.Active, 0, 0, 0⟩).connectionActive
        (⟨1, ConnStatus.Active, 0, 0, 0⟩ : Connection).id =
        some (⟨1, ConnStatus.Active, 0, 5, 0⟩ : Connection) ∧
      findId (sendPing 5 (some "requested address is not valid in its context")
          { connectionActive := [⟨1, ConnStatus.Active, 0, 0, 0⟩], connectionInactive := [] }
          ⟨1, ConnStatus.Active, 0, 0, 0⟩).connectionInactive
        (⟨1, ConnStatus.Active, 0, 0, 0⟩ : Connection).id = none) ∧
    ((((⟨1, ConnStatus.Active, 0, 0, 0⟩ : Connection).Status = ConnStatus.Active ∨
        (⟨1, ConnStatus.Active, 0, 0, 0⟩ : Connection).Status = ConnStatus.Redundant) ∧
        IsNetworkErrorFatal (some "requested address is not valid in its context") = true) →
      findId (sendPing 5 (some "requested address is not valid in its context")
          { connectionActive := [⟨1, ConnStatus.Active, 0, 0, 0⟩], connectionInactive := [] }
          ⟨1, ConnStatus.Active, 0, 0, 0⟩).connectionActive
        (⟨1, ConnStatus.Active, 0, 0, 0⟩ : Connection).id = none ∧
      findId (sendPing 5 (some "requested address is not valid in its context")
          { connectionActive := [⟨1, ConnStatus.Active, 0, 0, 0⟩], connectionInactive := [] }
          ⟨1, ConnStatus.Active, 0, 0, 0⟩).connectionInactive
        (⟨1, ConnStatus.Active, 0, 0, 0⟩ : Connection).id =
        some (⟨1, ConnStatus.Inactive, 0, 5, 5 + connectionRemove⟩ : Connection)) :=
  sendPing_always_stamps 5 (some "requested address is not valid in its context")
    { connectionActive := [⟨1, ConnStatus.Active, 0, 0, 0⟩], connectionInactive := [] }
    ⟨1, ConnStatus.Active, 0, 0, 0⟩ (by decide) (by decide)

/-- C6: the tick's redundant thresholds are exactly four times the
normal ones (invalidate at `now - 88`, ping at `now - 40`), and an
active connection of status Redundant that has been quiet for 25 seconds
survives the whole tick in the active list with its record untouched. -/
theorem redundant_thresholds_four_times (now : Int) (err : Nat → Option String)
    (ps : PeerState) (c : Connection)
    (hmem : c ∈ ps.connectionActive)
    (hnodup : (idsOf (ps.connectionActive ++ ps.connectionInactive)).Nodup)
    (hst : c.Status = ConnStatus.Redundant)
    (hin : c.LastPacketIn = now - 25) :
    thresholdInvalidate2 now = now - 88 ∧
    thresholdPingOut2 now = now - 40 ∧
    findId (tickPeer now err ps).1.connectionActive c.id = some c := by
  refine ⟨?_, ?_, ?_⟩
  · simp only [thresholdInvalidate2, connectionInvalidate]
    norm_num
  · simp only [thresholdPingOut2, pingTime]
    norm_num
  obtain ⟨pre, post, hsplit⟩ := List.append_of_mem hmem
  have hnodup2 := hnodup
  rw [idsOf_append, List.nodup_append] at hnodup2
  obtain ⟨hndA, hndI, hdisjAI⟩ := hnodup2
  have hfindA : findId ps.connectionActive c.id = some c := findId_of_nodup _ _ hmem hndA
  have hcidA : c.id ∈ idsOf ps.connectionActive := List.mem_map_of_mem Connection.id hmem
  have hfindI : findId ps.connectionInactive c.id = none :=
    (findId_eq_none_iff _ _).mpr (hdisjAI hcidA)
  have hndA2 := hndA
  rw [hsplit, idsOf_append, List.nodup_append] at hndA2
  obtain ⟨hndpre, hndcpost, hdisjpre⟩ := hndA2
  rw [idsOf_cons] at hndcpost hdisjpre
  have hcpost : c.id ∉ idsOf post := (List.nodup_cons.mp hndcpost).1
  have hcpre : c.id ∉ idsOf pre := fun hm => hdisjpre hm (List.mem_cons_self _ _)
  have h1 : ¬(c.LastPacketIn < (if c.Status = ConnStatus.Redundant then
      thresholdInvalidate2 now else thresholdInvalidate1 now)) := by
    rw [if_pos hst, hin]
    simp only [thresholdInvalidate2, connectionInvalidate]
    omega
  have h2 : ¬((c.LastPacketIn < (if c.Status = ConnStatus.Redundant then
        thresholdPingOut2 now else thresholdPingOut1 now)) ∧
      (c.LastPingOut < (if c.Status = ConnStatus.Redundant then
        thresholdPingOut2 now else thresholdPingOut1 now))) := by
    rw [if_pos hst, hin]
    intro hcon
    have h3 := hcon.1
    simp only [thresholdPingOut2, pingTime] at h3
    omega
  have hA : findId (tickActive now err ps.connectionActive ps).1.connectionActive c.id =
        some c ∧
      findId (tickActive now err ps.connectionActive ps).1.connectionInactive c.id = none := by
    rw [hsplit, tickActive_append now err pre (c :: post) ps]
    dsimp only
    rw [tickActive_cons, if_neg h1, if_neg h2]
    have hpre := tickActive_preserve now err pre ps c.id hcpre
    have hpost := tickActive_preserve now err post (tickActive now err pre ps).1 c.id hcpost
    exact ⟨hpost.1.trans (hpre.1.trans hfindA), hpost.2.1.trans (hpre.2.1.trans hfindI)⟩
  have hSInone : c.id ∉ idsOf (tickActive now err ps.connectionActive ps).1.connectionInactive :=
    (findId_eq_none_iff _ _).mp hA.2
  have hfin := tickInactive_preserve now err
    ((tickActive now err ps.connectionActive ps).1.connectionInactive)
    (tickActive now err ps.connectionActive ps).1 c.id hSInone
  show findId (tickInactive now err
      (tickActive now err ps.connectionActive ps).1.connectionInactive
      (tickActive now err ps.connectionActive ps).1).1.connectionActive c.id = some c
  rw [hfin.1]
  exact hA.1

/-- Witness for C6: a single Redundant connection quiet for 25 seconds at
`now = 0`. -/
theorem redundant_thresholds_four_times_witness :
    thresholdInvalidate2 0 = 0 - 88 ∧
    thresholdPingOut2 0 = 0 - 40 ∧
    findId (tickPeer 0 (fun _ => none)
        { connectionActive := [⟨1, ConnStatus.Redundant, -25, 0, 0⟩],
          connectionInactive := [] }).1.connectionActive
      (⟨1, ConnStatus.Redundant, -25, 0, 0⟩ : Connection).id =
      some ⟨1, ConnStatus.Redundant, -25, 0, 0⟩ :=
  redundant_thresholds_four_times 0 (fun _ => none)
    { connectionActive := [⟨1, ConnStatus.Redundant, -25, 0, 0⟩], connectionInactive := [] }
    ⟨1, ConnStatus.Redundant, -25, 0, 0⟩ (by decide) (by decide) rfl (by decide)

/-- C2 (amended): in the tick's inactive pass over a peer with active
list `A` and inactive list `pre ++ c :: post` (distinct ids, all of
status Inactive, no expired connection examined before `c`), the
expired connection `c` is purged exactly when the peer has at least one
active connection or more than two inactive connections COUNTING the
candidate itself — that is, at least two OTHER inactive connections;
the original claim requires more than two OTHER inactive
connections. -/
theorem tickInactive_purge_guard (now : Int) (err : Nat → Option String)
    (A pre post : List Connection) (c : Connection)
    (hnodup : (idsOf (pre ++ c :: post)).Nodup)
    (hst : ∀ d ∈ pre ++ c :: post, d.Status = ConnStatus.Inactive)
    (hpre : ∀ d ∈ pre, ¬ d.Expires < now)
    (hexp : c.Expires < now) :
    (c.id ∉ idsOf (tickInactive now err (pre ++ c :: post)
        { connectionActive := A,
          connectionInactive := pre ++ c :: post }).1.connectionInactive)
    ↔ (1 ≤ A.length ∨ 2 < (pre ++ c :: post).length) := by
  have hndfull := hnodup
  rw [idsOf_append, List.nodup_append] at hndfull
  obtain ⟨hndpre, hndcpost, hdisjpre⟩ := hndfull
  rw [idsOf_cons] at hndcpost hdisjpre
  have hcpost : c.id ∉ idsOf post := (List.nodup_cons.mp hndcpost).1
  have hcpre : c.id ∉ idsOf pre := fun hm => hdisjpre hm (List.mem_cons_self _ _)
  have hcmem : c ∈ pre ++ c :: post := List.mem_append_right _ (List.mem_cons_self _ _)
  have hfindc : findId (pre ++ c :: post) c.id = some c := findId_of_nodup _ _ hcmem hnodup
  have hprehyp : ∀ d ∈ pre, d.Status = ConnStatus.Inactive ∧ ¬ d.Expires < now :=
    fun d hd => ⟨hst d (List.mem_append_left _ hd), hpre d hd⟩
  have hposthyp : ∀ d ∈ post, d.Status = ConnStatus.Inactive :=
    fun d hd => hst d (List.mem_append_right _ (List.mem_cons_of_mem _ hd))
  rw [tickInactive_append now err pre (c :: post)
    { connectionActive := A, connectionInactive := pre ++ c :: post }]
  dsimp only
  have hlen := tickInactive_lengths now err pre
    { connectionActive := A, connectionInactive := pre ++ c :: post } hprehyp
  have hpres := tickInactive_preserve now err pre
    { connectionActive := A, connectionInactive := pre ++ c :: post } c.id hcpre
  rw [tickInactive_cons]
  by_cases hguard : 1 ≤ A.length ∨ 2 < (pre ++ c :: post).length
  · have hcond : (1 ≤ (tickInactive now err pre
        { connectionActive := A,
          connectionInactive := pre ++ c :: post }).1.connectionActive.length ∨
        2 < (tickInactive now err pre
        { connectionActive := A,
          connectionInactive := pre ++ c :: post }).1.connectionInactive.length) ∧
        c.Expires < now := by
      refine ⟨?_, hexp⟩
      rcases hguard with hg | hg
      · left
        rw [hlen.1]
        exact hg
      · right
        rw [hlen.2]
        exact hg
    rw [if_pos hcond]
    have hrm : c.id ∉ idsOf (removeInactiveConnection
        (tickInactive now err pre
          { connectionActive := A,
            connectionInactive := pre ++ c :: post }).1 c).connectionInactive :=
      (findId_eq_none_iff _ _).mp (findId_filterNe_self _ _)
    have hfinal := tickInactive_no_add now err post _ c.id hposthyp hrm
    exact iff_of_true hfinal hguard
  · have hcond2 : ¬((1 ≤ (tickInactive now err pre
        { connectionActive := A,
          connectionInactive := pre ++ c :: post }).1.connectionActive.length ∨
        2 < (tickInactive now err pre
        { connectionActive := A,
          connectionInactive := pre ++ c :: post }).1.connectionInactive.length) ∧
        c.Expires < now) := by
      intro hcon
      apply hguard
      rcases hcon.1 with hg | hg
      · left
        rw [hlen.1] at hg
        exact hg
      · right
        rw [hlen.2] at hg
        exact hg
    rw [if_neg hcond2]
    have hfind2 : findId (tickInactive now err pre
        { connectionActive := A,
          connectionInactive := pre ++ c :: post }).1.connectionInactive c.id = some c :=
      hpres.2.1.trans hfindc
    by_cases hping : c.LastPingOut < thresholdPingOut1 now
    · rw [if_pos hping]
      dsimp only
      have hc : c.Status = ConnStatus.Inactive := hst c hcmem
      have hupd : findId (sendPing now (err c.id)
          (tickInactive now err pre
            { connectionActive := A,
              connectionInactive := pre ++ c :: post }).1 c).connectionInactive c.id =
          some { c with LastPingOut := now } := by
        rw [sendPing_inactive_status now (err c.id) _ c hc]
        exact findId_updateConn_self _ _ _ hfind2
      have hpost2 := tickInactive_preserve now err post
        (sendPing now (err c.id) (tickInactive now err pre
          { connectionActive := A,
            connectionInactive := pre ++ c :: post }).1 c) c.id hcpost
      refine iff_of_false (fun hno => hno ?_) hguard
      exact mem_idsOf_of_findId _ _ _ (hpost2.2.1.trans hupd)
    · rw [if_neg hping]
      have hpost2 := tickInactive_preserve now err post
        (tickInactive now err pre
          { connectionActive := A,
            connectionInactive := pre ++ c :: post }).1 c.id hcpost
      refine iff_of_false (fun hno => hno ?_) hguard
      exact mem_idsOf_of_findId _ _ _ (hpost2.2.1.trans hfind2)

/-- Witness for C2's amended theorem: no active connection, four
inactive connections of which only the candidate (id 1) is expired; the
guard `2 < 4` holds, so the candidate is purged. -/
theorem tickInactive_purge_guard_witness :
    ((⟨1, ConnStatus.Inactive, 0, 0, -5⟩ : Connection).id ∉
      idsOf (tickInactive 0 (fun _ => none)
        ([(⟨2, ConnStatus.Inactive, 0, 0, 5⟩ : Connection), (⟨3, ConnStatus.Inactive, 0, 0, 5⟩ : Connection)] ++
          (⟨1, ConnStatus.Inactive, 0, 0, -5⟩ : Connection) ::
            [(⟨4, ConnStatus.Inactive, 0, 0, 5⟩ : Connection)])
        { connectionActive := [],
          connectionInactive :=
            [(⟨2, ConnStatus.Inactive, 0, 0, 5⟩ : Connection), (⟨3, ConnStatus.Inactive, 0, 0, 5⟩ : Connection)] ++
              (⟨1, ConnStatus.Inactive, 0, 0, -5⟩ : Connection) ::
                [(⟨4, ConnStatus.Inactive, 0, 0, 5⟩ : Connection)] }).1.connectionInactive)
    ↔ (1 ≤ ([] : List Connection).length ∨
        2 < ([(⟨2, ConnStatus.Inactive, 0, 0, 5⟩ : Connection), (⟨3, ConnStatus.Inactive, 0, 0, 5⟩ : Connection)] ++
          (⟨1, ConnStatus.Inactive, 0, 0, -5⟩ : Connection) ::
            [(⟨4, ConnStatus.Inactive, 0, 0, 5⟩ : Connection)]).length) :=
  tickInactive_purge_guard 0 (fun _ => none) []
    [(⟨2, ConnStatus.Inactive, 0, 0, 5⟩ : Connection),
     (⟨3, ConnStatus.Inactive, 0, 0, 5⟩ : Connection)]
    [(⟨4, ConnStatus.Inactive, 0, 0, 5⟩ : Connection)]
    (⟨1, ConnStatus.Inactive, 0, 0, -5⟩ : Connection)
    (by decide) (by decide) (by decide) (by decide)


/-- C5 (amended): an Active connection whose `LastPacketIn` is 25
seconds old (before the 22-second invalidate threshold) is moved to the
inactive list by the tick's active pass, which sends no ping for it; but
the inactive pass of the SAME tick sends it a revival ping exactly when
its last outbound ping is older than the 10-second threshold — the
original claim asserts that no ping at all is sent for it in that
tick. -/
theorem tick_invalidates_quiet_active (now : Int) (err : Nat → Option String)
    (ps : PeerState) (c : Connection)
    (hmem : c ∈ ps.connectionActive)
    (hnodup : (idsOf (ps.connectionActive ++ ps.connectionInactive)).Nodup)
    (hst : c.Status = ConnStatus.Active)
    (hin : c.LastPacketIn = now - 25) :
    c.id ∉ idsOf (tickPeer now err ps).1.connectionActive ∧
    c.id ∈ idsOf (tickPeer now err ps).1.connectionInactive ∧
    c.id ∉ (tickPeer now err ps).2.1 ∧
    (c.id ∈ (tickPeer now err ps).2.2 ↔ c.LastPingOut < thresholdPingOut1 now) := by
  obtain ⟨pre, post, hsplit⟩ := List.append_of_mem hmem
  have hnodup2 := hnodup
  rw [idsOf_append, List.nodup_append] at hnodup2
  obtain ⟨hndA, hndI, hdisjAI⟩ := hnodup2
  have hcidA : c.id ∈ idsOf ps.connectionActive := List.mem_map_of_mem Connection.id hmem
  have hfindI : findId ps.connectionInactive c.id = none :=
    (findId_eq_none_iff _ _).mpr (hdisjAI hcidA)
  have hndA2 := hndA
  rw [hsplit, idsOf_append, List.nodup_append] at hndA2
  obtain ⟨hndpre, hndcpost, hdisjpre⟩ := hndA2
  rw [idsOf_cons] at hndcpost hdisjpre
  have hcpost : c.id ∉ idsOf post := (List.nodup_cons.mp hndcpost).1
  have hcpre : c.id ∉ idsOf pre := fun hm => hdisjpre hm (List.mem_cons_self _ _)
  have h1 : c.LastPacketIn < (if c.Status = ConnStatus.Redundant then
      thresholdInvalidate2 now else thresholdInvalidate1 now) := by
    have hnr : ¬ c.Status = ConnStatus.Redundant := by
      rw [hst]
      intro hcon
      exact ConnStatus.noConfusion hcon
    rw [if_neg hnr, hin]
    simp only [thresholdInvalidate1, connectionInvalidate]
    omega
  have hActive :
      findId (tickActive now err ps.connectionActive ps).1.connectionActive c.id = none ∧
      findId (tickActive now err ps.connectionActive ps).1.connectionInactive c.id =
        some { c with Status := ConnStatus.Inactive, Expires := now + connectionRemove } ∧
      c.id ∉ (tickActive now err ps.connectionActive ps).2 := by
    rw [hsplit, tickActive_append now err pre (c :: post) ps]
    dsimp only
    rw [tickActive_cons, if_pos h1]
    have hpre2 := tickActive_preserve now err pre ps c.id hcpre
    have hpost2 := tickActive_preserve now err post
      (invalidateActiveConnection now (tickActive now err pre ps).1 c) c.id hcpost
    refine ⟨?_, ?_, ?_⟩
    · exact hpost2.1.trans (findId_filterNe_self _ _)
    · refine hpost2.2.1.trans ?_
      show findId ((tickActive now err pre ps).1.connectionInactive ++ [_]) c.id = _
      rw [findId_append_right _ _ _ (hpre2.2.1.trans hfindI)]
      simp [findId]
    · intro hmemev
      rcases List.mem_append.mp hmemev with hm | hm
      · exact hpre2.2.2 hm
      · exact hpost2.2.2 hm
  have hSInodup :
      (idsOf (tickActive now err ps.connectionActive ps).1.connectionInactive).Nodup :=
    tickActive_inactive_nodup now err ps.connectionActive ps hndA hndI
      (fun i hi => hdisjAI hi)
  have hinact : findId (tickInactive now err
        (tickActive now err ps.connectionActive ps).1.connectionInactive
        (tickActive now err ps.connectionActive ps).1).1.connectionInactive c.id ≠ none ∧
      (c.id ∈ (tickInactive now err
        (tickActive now err ps.connectionActive ps).1.connectionInactive
        (tickActive now err ps.connectionActive ps).1).2 ↔
        c.LastPingOut < thresholdPingOut1 now) := by
    obtain ⟨psA, hpsA⟩ : ∃ x, (tickActive now err ps.connectionActive ps).1 = x := ⟨_, rfl⟩
    rw [hpsA] at hActive hSInodup ⊢
    obtain ⟨hmem2, _⟩ := findId_mem _ _ _ hActive.2.1
    obtain ⟨pre2, post2, hsplit2⟩ := List.append_of_mem hmem2
    have hSInd2 := hSInodup
    rw [hsplit2, idsOf_append, List.nodup_append] at hSInd2
    obtain ⟨hndpre2, hndcpost2, hdisjpre2⟩ := hSInd2
    rw [idsOf_cons] at hndcpost2 hdisjpre2
    have hcpost2 : c.id ∉ idsOf post2 := (List.nodup_cons.mp hndcpost2).1
    have hcpre2 : c.id ∉ idsOf pre2 := fun hm => hdisjpre2 hm (List.mem_cons_self _ _)
    rw [hsplit2, tickInactive_append now err pre2 ({ c with Status := ConnStatus.Inactive, Expires := now + connectionRemove } :: post2) psA]
    dsimp only
    rw [tickInactive_cons]
    have hpre3 := tickInactive_preserve now err pre2 psA c.id hcpre2
    have hfind3 : findId (tickInactive now err pre2 psA).1.connectionInactive c.id = some { c with Status := ConnStatus.Inactive, Expires := now + connectionRemove } :=
      hpre3.2.1.trans hActive.2.1
    have hpurge : ¬((1 ≤ (tickInactive now err pre2 psA).1.connectionActive.length ∨ 2 < (tickInactive now err pre2 psA).1.connectionInactive.length) ∧ ({ c with Status := ConnStatus.Inactive, Expires := now + connectionRemove } : Connection).Expires < now) := by
      intro hcon
      have h9 : now + connectionRemove < now := hcon.2
      simp only [connectionRemove] at h9
      omega
    rw [if_neg hpurge]
    by_cases hping : c.LastPingOut < thresholdPingOut1 now
    · have hping2 : ({ c with Status := ConnStatus.Inactive, Expires := now + connectionRemove } : Connection).LastPingOut < thresholdPingOut1 now := hping
      rw [if_pos hping2]
      have hupd : findId (sendPing now (err ({ c with Status := ConnStatus.Inactive, Expires := now + connectionRemove } : Connection).id) (tickInactive now err pre2 psA).1 { c with Status := ConnStatus.Inactive, Expires := now + connectionRemove }).connectionInactive c.id = some { c with Status := ConnStatus.Inactive, Expires := now + connectionRemove, LastPingOut := now } := by
        rw [sendPing_inactive_status now _ _ _ rfl]
        exact findId_updateConn_self _ _ _ hfind3
      have hpost3 := tickInactive_preserve now err post2 (sendPing now (err ({ c with Status := ConnStatus.Inactive, Expires := now + connectionRemove } : Connection).id) (tickInactive now err pre2 psA).1 { c with Status := ConnStatus.Inactive, Expires := now + connectionRemove }) c.id hcpost2
      have hfin := hpost3.2.1.trans hupd
      constructor
      · intro hcon
        exact Option.noConfusion (hfin.symm.trans hcon)
      · constructor
        · intro _
          exact hping
        · intro _
          exact List.mem_append.mpr (Or.inr (List.mem_cons_self _ _))
    · have hping2 : ¬(({ c with Status := ConnStatus.Inactive, Expires := now + connectionRemove } : Connection).LastPingOut < thresholdPingOut1 now) := hping
      rw [if_neg hping2]
      have hpost3 := tickInactive_preserve now err post2 (tickInactive now err pre2 psA).1 c.id hcpost2
      have hfin := hpost3.2.1.trans hfind3
      constructor
      · intro hcon
        exact Option.noConfusion (hfin.symm.trans hcon)
      · constructor
        · intro hmem3
          rcases List.mem_append.mp hmem3 with hm | hm
          · exact absurd hm hpre3.2.2
          · exact absurd hm hpost3.2.2
        · intro hp
          exact absurd hp hping
  refine ⟨?_, ?_, ?_, ?_⟩
  · exact (findId_eq_none_iff _ _).mp (tickInactive_active_none now err
      (tickActive now err ps.connectionActive ps).1.connectionInactive
      (tickActive now err ps.connectionActive ps).1 c.id hActive.1)
  · cases hfin2 : findId (tickInactive now err
        (tickActive now err ps.connectionActive ps).1.connectionInactive
        (tickActive now err ps.connectionActive ps).1).1.connectionInactive c.id with
    | none => exact absurd hfin2 hinact.1
    | some d => exact mem_idsOf_of_findId _ _ _ hfin2
  · exact hActive.2.2
  · exact hinact.2

/-- Witness for C5's amended theorem: one Active connection quiet for 25
seconds with a stale outbound-ping stamp, at `now = 0`. -/
theorem tick_invalidates_quiet_active_witness :
    (⟨1, ConnStatus.Active, -25, -100, 0⟩ : Connection).id ∉
      idsOf (tickPeer 0 (fun _ => none)
        { connectionActive := [(⟨1, ConnStatus.Active, -25, -100, 0⟩ : Connection)],
          connectionInactive := [] }).1.connectionActive ∧
    (⟨1, ConnStatus.Active, -25, -100, 0⟩ : Connection).id ∈
      idsOf (tickPeer 0 (fun _ => none)
        { connectionActive := [(⟨1, ConnStatus.Active, -25, -100, 0⟩ : Connection)],
          connectionInactive := [] }).1.connectionInactive ∧
    (⟨1, ConnStatus.Active, -25, -100, 0⟩ : Connection).id ∉
      (tickPeer 0 (fun _ => none)
        { connectionActive := [(⟨1, ConnStatus.Active, -25, -100, 0⟩ : Connection)],
          connectionInactive := [] }).2.1 ∧
    ((⟨1, ConnStatus.Active, -25, -100, 0⟩ : Connection).id ∈
      (tickPeer 0 (fun _ => none)
        { connectionActive := [(⟨1, ConnStatus.Active, -25, -100, 0⟩ : Connection)],
          connectionInactive := [] }).2.2 ↔
      (⟨1, ConnStatus.Active, -25, -100, 0⟩ : Connection).LastPingOut <
        thresholdPingOut1 0) :=
  tick_invalidates_quiet_active 0 (fun _ => none)
    { connectionActive := [(⟨1, ConnStatus.Active, -25, -100, 0⟩ : Connection)],
      connectionInactive := [] }
    (⟨1, ConnStatus.Active, -25, -100, 0⟩ : Connection)
    (by decide) (by decide) rfl (by decide)
